import Mathlib

/-!
Shallow embedding of `src/src/weighted_swap.cpp` (RMatrixSampling).

The file embeds the two exported entry points `simple_swap_n` and `swap_n`
together with the data structures they use: the edge list (two parallel
vectors), the edge hash set (`std::unordered_set` of ordered pairs, embedded
as a `Finset`), the forbidden ("structural zero") set, and the per-step
diagnostic record of the weighted sampler.

Machine integers are embedded as `ℤ` (vertex ids fit easily in `int`);
the C++ `double` weights and the uniform draw are embedded as `ℚ`: every
claim treated here depends only on exact comparisons (`u < swap_p` with
`u ∈ [0,1)`) that are unaffected by the rounding behaviour of `double`.

The faithfulness notes that matter:
* line 139 of the source builds the zero set with the loop bound `m`
  (the number of edges), not the length of `z_from`; the embedding keeps
  that bound (`buildSet z_from z_to m` below);
* lines 180–181 of the source test `zeroSet.find((a,d)) != edgeSet.end()`
  and `edgeSet.find((c,b)) != edgeSet.end()`.  In the libstdc++
  representation used by the program an `unordered_set` `end()` iterator is
  a null node pointer, so comparing a `find` result against the other set's
  `end()` behaves exactly like a membership test in the searched set; the
  embedding renders the condition as `(a,d) ∈ zeroSet ∨ (c,b) ∈ edgeSet`,
  keeping the source's (mismatched) choice of sets;
* `Rcpp::LogicalVector v(n)` and `Rcpp::NumericVector v(n)` are
  zero-initialised, so every diagnostic column starts out `false` / `0` and
  only the assignments present in the source change it.
-/

namespace RMatrixSampling

/-- An ordered pair (from, to) of vertex ids, as in `std::pair<int,int>`. -/
abbrev Edge := ℤ × ℤ

/-- Modelled from the spec: the C++ random machinery (`std::mt19937`,
`std::uniform_int_distribution`, `std::uniform_real_distribution`) is not
part of the repository.  It is modelled as a deterministic stream of raw
32-bit words together with a read position; each distribution call consumes
one word. -/
structure Gen where
  stream : ℕ → ℕ
  pos : ℕ

/-- Modelled from the spec: `std::uniform_int_distribution<> randint(0, m-1)`
applied to the generator; returns an index in `{0, …, m−1}` (for `m > 0`)
and the advanced generator. -/
def randint (m : ℕ) (g : Gen) : ℕ × Gen :=
  (g.stream g.pos % m, ⟨g.stream, g.pos + 1⟩)

/-- Modelled from the spec: `std::uniform_real_distribution<> randu(0.0, 1.0)`
applied to the generator; returns a rational in `[0, 1)` and the advanced
generator. -/
def randu (g : Gen) : ℚ × Gen :=
  (mkRat (g.stream g.pos % 2 ^ 32 : ℕ) (2 ^ 32), ⟨g.stream, g.pos + 1⟩)

/-- Rational multiplication in a kernel-computable form; `qmul_eq` below
proves it equal to `ℚ` multiplication, which is how the embedded code's
`double` products are read. -/
def qmul (a b : ℚ) : ℚ := mkRat (a.num * b.num) (a.den * b.den)

/-- Rational division in a kernel-computable form; `qdiv_eq` below proves
it equal to `ℚ` division, which is how the embedded code's `double`
quotient `w_post / w_pre` is read. -/
def qdiv (a b : ℚ) : ℚ := Rat.divInt (a.num * b.den) (a.den * b.num)

/-- One row of the diagnostic record of `swap_n` (lines 153–158).  The Rcpp
vectors backing the columns are zero-initialised, hence the `false` / `0`
defaults; a step only overwrites the fields assigned on its control path. -/
structure Diag where
  same_edge : Bool := false
  is_checkerboard : Bool := false
  is_not_struct_zeros : Bool := false
  can_swap : Bool := false
  did_swap : Bool := false
  swap_p : ℚ := 0
deriving DecidableEq

/-- The mutable state of either sampler: the two parallel edge vectors, the
edge hash set, and the random generator. -/
structure EState where
  e_from : List ℤ
  e_to : List ℤ
  edgeSet : Finset Edge
  gen : Gen

/-- The current edge list as a list of ordered pairs. -/
def edges (st : EState) : List Edge := st.e_from.zip st.e_to

/-- The hash-set construction loop (lines 50–52 and 133–135 for the edge
set, lines 139–141 for the zero set): insert `(xs[i], ys[i])` for
`i = 0, …, m−1`.  Note that for the zero set the source passes the *edge*
count `m`, not the length of `xs`. -/
def buildSet (xs ys : List ℤ) (m : ℕ) : Finset Edge :=
  ((List.range m).map (fun i => (xs.getD i 0, ys.getD i 0))).toFinset

/-- The commit of an accepted swap, identical in both samplers
(lines 79–86 and 195–202): insert `(a,d)` and `(c,b)` into the edge set,
erase `(a,b)` and `(c,d)`, and exchange the `from` fields of slots `i` and
`j`; the `to` vector is untouched. -/
def doSwap (st : EState) (i j : ℕ) (g : Gen) : EState :=
  let a := st.e_from.getD i 0
  let b := st.e_to.getD i 0
  let c := st.e_from.getD j 0
  let d := st.e_to.getD j 0
  { e_from := (st.e_from.set i c).set j a
    e_to := st.e_to
    edgeSet := ((insert (c, b) (insert (a, d) st.edgeSet)).erase (a, b)).erase (c, d)
    gen := g }

/-- One iteration of the loop of `simple_swap_n` (lines 61–89). -/
def simpleStep (swap_p : ℚ) (st : EState) : EState :=
  let m := st.e_from.length
  let r1 := randint m st.gen
  let i := r1.1
  let r2 := randint m r1.2
  let j := r2.1
  let g2 := r2.2
  if i = j then { st with gen := g2 }
  else
    let a := st.e_from.getD i 0
    let b := st.e_to.getD i 0
    let c := st.e_from.getD j 0
    let d := st.e_to.getD j 0
    if (a, d) ∉ st.edgeSet ∧ (c, b) ∉ st.edgeSet then
      let r3 := randu g2
      if r3.1 < swap_p then doSwap st i j r3.2
      else { st with gen := r3.2 }
    else { st with gen := g2 }

/-- One iteration of the loop of `swap_n` (lines 160–204), producing the
next state and the diagnostic row of the step. -/
def swapStep (zeroSet : Finset Edge) (w : ℤ → ℤ → ℚ) (st : EState) : EState × Diag :=
  let m := st.e_from.length
  let r1 := randint m st.gen
  let i := r1.1
  let r2 := randint m r1.2
  let j := r2.1
  let g2 := r2.2
  if i = j then ({ st with gen := g2 }, { same_edge := true })
  else
    let a := st.e_from.getD i 0
    let b := st.e_to.getD i 0
    let c := st.e_from.getD j 0
    let d := st.e_to.getD j 0
    if (a, d) ∈ st.edgeSet ∨ (c, b) ∈ st.edgeSet then
      ({ st with gen := g2 }, { is_checkerboard := false })
    else if (a, d) ∈ zeroSet ∨ (c, b) ∈ st.edgeSet then
      ({ st with gen := g2 }, { is_not_struct_zeros := false })
    else
      let w_pre := qmul (w a b) (w c d)
      let w_post := qmul (w a d) (w c b)
      let sp := qdiv w_post w_pre
      let r3 := randu g2
      if r3.1 < sp then
        (doSwap st i j r3.2, { can_swap := true, did_swap := true, swap_p := sp })
      else
        ({ st with gen := r3.2 }, { can_swap := true, swap_p := sp })

/-- The loop of `simple_swap_n`: `n` iterations of `simpleStep`. -/
def simpleRun (swap_p : ℚ) : ℕ → EState → EState
  | 0, st => st
  | n + 1, st => simpleRun swap_p n (simpleStep swap_p st)

/-- The loop of `swap_n`: `n` iterations of `swapStep`, collecting one
diagnostic row per step. -/
def swapRun (zeroSet : Finset Edge) (w : ℤ → ℤ → ℚ) : ℕ → EState → EState × List Diag
  | 0, st => (st, [])
  | n + 1, st =>
    let p := swapStep zeroSet w st
    let rest := swapRun zeroSet w n p.1
    (rest.1, p.2 :: rest.2)

/-- Modelled from the spec: `std::mt19937 gen(seed)` — the repository does
not contain the engine, only its use; its word stream is modelled as an
arbitrary fixed deterministic function of the seed. -/
def mtStream (seed : ℤ) : ℕ → ℕ :=
  fun t => (seed.natAbs * 6364136223846793005 + 1442695040888963407 + t * 69069) % 2 ^ 32

/-- The seed actually used (lines 40–43 and 122–125): the sentinel `-1`
requests a word from `std::random_device`, modelled as the explicit
`device` parameter; any other seed is used as given. -/
def effectiveSeed (seed : ℤ) (device : ℕ) : ℤ :=
  if seed = -1 then (device : ℤ) else seed

/-- The state both entry points build before their loop: the caller's edge
vectors, the edge hash set over them, and a freshly seeded generator. -/
def initState (e_from e_to : List ℤ) (seed : ℤ) (device : ℕ) : EState :=
  { e_from := e_from
    e_to := e_to
    edgeSet := buildSet e_from e_to e_from.length
    gen := { stream := mtStream (effectiveSeed seed device), pos := 0 } }

/-- Entry point `simple_swap_n` (lines 34–94): run the uniform sampler for
`n` steps and return the two parallel edge vectors. -/
def simple_swap_n (e_from e_to : List ℤ) (n : ℕ) (swap_p : ℚ) (seed : ℤ)
    (device : ℕ) : List ℤ × List ℤ :=
  let fin := simpleRun swap_p n (initState e_from e_to seed device)
  (fin.e_from, fin.e_to)

/-- Entry point `swap_n` (lines 113–216): build the zero set from `z_from`,
`z_to` — with the source's loop bound `m = e_from.length` (line 139) — run
the weighted sampler for `n` steps, and return the edge vectors together
with the diagnostic record. -/
def swap_n (e_from e_to : List ℤ) (n : ℕ) (w : ℤ → ℤ → ℚ)
    (z_from z_to : List ℤ) (seed : ℤ) (device : ℕ) :
    (List ℤ × List ℤ) × List Diag :=
  let zeroSet := buildSet z_from z_to e_from.length
  let r := swapRun zeroSet w n (initState e_from e_to seed device)
  ((r.1.e_from, r.1.e_to), r.2)

/-- The first index drawn by a step from state `st` (line 162). -/
def stepI (st : EState) : ℕ := (randint st.e_from.length st.gen).1

/-- The second index drawn by a step from state `st` (line 163). -/
def stepJ (st : EState) : ℕ :=
  (randint st.e_from.length (randint st.e_from.length st.gen).2).1

/-- `e_from[i]` of the step's first edge (line 169). -/
def stepA (st : EState) : ℤ := st.e_from.getD (stepI st) 0

/-- `e_to[i]` of the step's first edge (line 170). -/
def stepB (st : EState) : ℤ := st.e_to.getD (stepI st) 0

/-- `e_from[j]` of the step's second edge (line 171). -/
def stepC (st : EState) : ℤ := st.e_from.getD (stepJ st) 0

/-- `e_to[j]` of the step's second edge (line 172). -/
def stepD (st : EState) : ℤ := st.e_to.getD (stepJ st) 0

/-- The checkerboard rejection condition of a step (lines 174–175): one of
the two swap-completion edges already exists in the edge set. -/
def cbFails (st : EState) : Prop :=
  (stepA st, stepD st) ∈ st.edgeSet ∨ (stepC st, stepB st) ∈ st.edgeSet

/-- The structural-zero rejection condition of a step as written in the
source (lines 180–181): `(a,d)` is looked up in the zero set but `(c,b)` is
looked up in the *edge* set. -/
def szFails (zeroSet : Finset Edge) (st : EState) : Prop :=
  (stepA st, stepD st) ∈ zeroSet ∨ (stepC st, stepB st) ∈ st.edgeSet

instance (st : EState) : Decidable (cbFails st) := by
  unfold cbFails
  infer_instance

instance (zeroSet : Finset Edge) (st : EState) : Decidable (szFails zeroSet st) := by
  unfold szFails
  infer_instance

/-- Control-flow classification of a step: the step draws `i = j` and stops
at line 165. -/
def branchSame (st : EState) : Bool := decide (stepI st = stepJ st)

/-- Control-flow classification of a step: the step is rejected by the
checkerboard test (lines 174–178). -/
def branchCB (st : EState) : Bool := !branchSame st && decide (cbFails st)

/-- Control-flow classification of a step: the step is rejected by the
structural-zero test (lines 180–184). -/
def branchSZ (zeroSet : Finset Edge) (st : EState) : Bool :=
  !branchSame st && !decide (cbFails st) && decide (szFails zeroSet st)

/-- Control-flow classification of a step: the step reaches line 185 and
records `can_swap`. -/
def branchCan (zeroSet : Finset Edge) (st : EState) : Bool :=
  !branchSame st && !decide (cbFails st) && !decide (szFails zeroSet st)

/-- The consistency invariant between the edge vectors and the edge hash
set: parallel vectors of equal length, pairwise distinct edges, and the
hash set holding exactly the pairs of the list. -/
def Inv (st : EState) : Prop :=
  st.e_to.length = st.e_from.length ∧ (edges st).Nodup ∧
    st.edgeSet = (edges st).toFinset

/-- Disjointness of the vertex sets used as tails and as heads; the
hypothesis under which self-loops are genuinely impossible. -/
def SepFromTo (st : EState) : Prop :=
  ∀ x ∈ st.e_from, ∀ y ∈ st.e_to, x ≠ y

instance (st : EState) : Decidable (SepFromTo st) := by
  unfold SepFromTo
  infer_instance

/-- A concrete generator whose word stream is the identity; used to drive
concrete runs of the samplers. -/
def cexGen : Gen := ⟨fun t => t, 0⟩

/-- The constant weight matrix `W ≡ 1`. -/
def oneW : ℤ → ℤ → ℚ := fun _ _ => 1

/-- Concrete state: edge list `[(0,1), (2,3)]` with its edge set and the
identity-stream generator. -/
def cexStA : EState := ⟨[0, 2], [1, 3], buildSet [0, 2] [1, 3] 2, cexGen⟩

/-- Concrete zero set built, as `swap_n` builds it, from the parallel
vectors `z_from = [2,2]`, `z_to = [1,1]` with `m = 2`: the set `{(2,1)}`. -/
def cexZsA : Finset Edge := buildSet [2, 2] [1, 1] 2

/-- Concrete state: edge list `[(1,2), (3,1)]` (no self-loop, but vertex 1
occurs both as a tail and as a head). -/
def cexStB : EState := ⟨[1, 3], [2, 1], buildSet [1, 3] [2, 1] 2, cexGen⟩

/-- Concrete zero set `{(9,9)}`, touching none of the vertices of
`cexStB`. -/
def cexZsB : Finset Edge := buildSet [9, 9] [9, 9] 2

/-- Concrete state: edge list `[(0,1), (2,3)]` with a constant-zero word
stream, so that a step draws `i = j = 0`. -/
def cexStSame : EState := ⟨[0, 2], [1, 3], buildSet [0, 2] [1, 3] 2, ⟨fun _ => 0, 0⟩⟩

theorem qmul_eq (a b : ℚ) : qmul a b = a * b := by
  unfold qmul
  rw [Rat.mkRat_eq_div]
  push_cast
  rw [← div_mul_div_comm, Rat.num_div_den, Rat.num_div_den]

theorem qdiv_eq (a b : ℚ) : qdiv a b = a / b := by
  unfold qdiv
  by_cases hb : b = 0
  · subst hb
    simp
  · have hbn : (b.num : ℚ) ≠ 0 := by
      exact_mod_cast Rat.num_ne_zero.2 hb
    have had : ((a.den : ℤ) : ℚ) ≠ 0 := by
      exact_mod_cast (Int.natCast_ne_zero).2 a.den_nz
    have hbd : ((b.den : ℤ) : ℚ) ≠ 0 := by
      exact_mod_cast (Int.natCast_ne_zero).2 b.den_nz
    rw [Rat.divInt_eq_div]
    push_cast
    conv_rhs => rw [← Rat.num_div_den a, ← Rat.num_div_den b]
    field_simp

theorem randu_nonneg (g : Gen) : 0 ≤ (randu g).1 := by
  unfold randu
  dsimp only
  rw [Rat.mkRat_eq_div]
  positivity

theorem randu_lt_one (g : Gen) : (randu g).1 < 1 := by
  unfold randu
  dsimp only
  rw [Rat.mkRat_eq_div, div_lt_one (by positivity)]
  exact_mod_cast Nat.mod_lt _ (by positivity)

theorem randint_lt (m : ℕ) (g : Gen) (hm : 0 < m) : (randint m g).1 < m :=
  Nat.mod_lt _ hm

theorem doSwap_e_from (st : EState) (i j : ℕ) (g : Gen) :
    (doSwap st i j g).e_from =
      (st.e_from.set i (st.e_from.getD j 0)).set j (st.e_from.getD i 0) := rfl

theorem doSwap_e_to (st : EState) (i j : ℕ) (g : Gen) :
    (doSwap st i j g).e_to = st.e_to := rfl

theorem doSwap_edgeSet (st : EState) (i j : ℕ) (g : Gen) :
    (doSwap st i j g).edgeSet =
      ((insert (st.e_from.getD j 0, st.e_to.getD i 0)
          (insert (st.e_from.getD i 0, st.e_to.getD j 0) st.edgeSet)).erase
            (st.e_from.getD i 0, st.e_to.getD i 0)).erase
              (st.e_from.getD j 0, st.e_to.getD j 0) := rfl

theorem zip_set {α β : Type} (xs : List α) (ys : List β) (i : ℕ) (x : α) (d : β)
    (h : xs.length = ys.length) (hi : i < ys.length) :
    (xs.set i x).zip ys = (xs.zip ys).set i (x, ys.getD i d) := by
  induction xs generalizing ys i with
  | nil =>
    cases ys with
    | nil => simp at hi
    | cons b u => simp at h
  | cons a t ih =>
    cases ys with
    | nil => simp at hi
    | cons b u =>
      cases i with
      | zero => simp
      | succ n =>
        have h' : t.length = u.length := by simpa using h
        have hi' : n < u.length := by simpa using hi
        simp only [List.set_cons_succ, List.zip_cons_cons, List.getD_cons_succ]
        rw [ih u n h' hi']

theorem toFinset_set {α : Type} [DecidableEq α] (l : List α) (i : ℕ) (x d : α)
    (hnd : l.Nodup) (hi : i < l.length) :
    (l.set i x).toFinset = insert x (l.toFinset.erase (l.getD i d)) := by
  induction l generalizing i with
  | nil => simp at hi
  | cons a t ih =>
    obtain ⟨ha, ht⟩ := List.nodup_cons.1 hnd
    cases i with
    | zero =>
      simp only [List.set_cons_zero, List.toFinset_cons, List.getD_cons_zero]
      rw [Finset.erase_insert (by simpa [List.mem_toFinset] using ha)]
    | succ n =>
      have hi' : n < t.length := by simpa using hi
      have hat : a ≠ t.getD n d := by
        intro he
        exact ha (by rw [he, List.getD_eq_getElem t d hi']; exact List.getElem_mem hi')
      simp only [List.set_cons_succ, List.toFinset_cons, List.getD_cons_succ]
      rw [ih n ht hi', Finset.erase_insert_of_ne hat, Finset.Insert.comm]

theorem coe_set {α : Type} [DecidableEq α] (l : List α) (i : ℕ) (x d : α)
    (hi : i < l.length) :
    ((l.set i x : List α) : Multiset α) = x ::ₘ ((l : Multiset α).erase (l.getD i d)) := by
  induction l generalizing i with
  | nil => simp at hi
  | cons a t ih =>
    cases i with
    | zero =>
      simp only [List.set_cons_zero, List.getD_cons_zero, ← Multiset.cons_coe,
        Multiset.erase_cons_head]
    | succ n =>
      have hi' : n < t.length := by simpa using hi
      have hmem : t.getD n d ∈ (t : Multiset α) := by
        rw [List.getD_eq_getElem t d hi']
        exact Multiset.mem_coe.2 (List.getElem_mem hi')
      simp only [List.set_cons_succ, List.getD_cons_succ, ← Multiset.cons_coe]
      rw [ih n hi']
      by_cases hat : t.getD n d = a
      · subst hat
        rw [Multiset.erase_cons_head, Multiset.cons_swap, Multiset.cons_erase hmem]
      · rw [Multiset.erase_cons_tail _ (Ne.symm hat), Multiset.cons_swap]

theorem buildSet_eq (xs ys : List ℤ) (h : ys.length = xs.length) :
    buildSet xs ys xs.length = (xs.zip ys).toFinset := by
  unfold buildSet
  congr 1
  apply List.ext_getElem
  · simp [List.length_zip, h]
  · intro n h1 h2
    have hn : n < xs.length := by simpa using h1
    have hn2 : n < ys.length := by rw [h]; exact hn
    simp [List.getElem_zip, List.getD_eq_getElem xs 0 hn, List.getD_eq_getElem ys 0 hn2,
      List.getElem?_eq_getElem hn, List.getElem?_eq_getElem hn2]

theorem swap_finset_eq {M : Finset Edge} {ab cd ad cb : Edge}
    (hab : ab ∈ M) (hcd : cd ∈ M) (had : ad ∉ M) (hcb : cb ∉ M) :
    ((insert cb (insert ad M)).erase ab).erase cd
      = insert ad ((insert cb (M.erase ab)).erase cd) := by
  have had_ab : ad ≠ ab := fun h => had (h ▸ hab)
  have had_cd : ad ≠ cd := fun h => had (h ▸ hcd)
  have hcb_ab : cb ≠ ab := fun h => hcb (h ▸ hab)
  ext x
  simp only [Finset.mem_insert, Finset.mem_erase]
  constructor
  · rintro ⟨hxcd, hxab, (rfl | rfl | hxM)⟩
    · exact Or.inr ⟨hxcd, Or.inl rfl⟩
    · exact Or.inl rfl
    · exact Or.inr ⟨hxcd, Or.inr ⟨hxab, hxM⟩⟩
  · rintro (rfl | ⟨hxcd, (rfl | ⟨hxab, hxM⟩)⟩)
    · exact ⟨had_cd, had_ab, Or.inr (Or.inl rfl)⟩
    · exact ⟨hxcd, hcb_ab, Or.inl rfl⟩
    · exact ⟨hxcd, hxab, Or.inr (Or.inr hxM)⟩

theorem doSwap_edges (st : EState) (i j : ℕ) (g : Gen)
    (hlen : st.e_to.length = st.e_from.length)
    (hi : i < st.e_from.length) (hj : j < st.e_from.length) :
    edges (doSwap st i j g) =
      ((st.e_from.zip st.e_to).set i (st.e_from.getD j 0, st.e_to.getD i 0)).set j
        (st.e_from.getD i 0, st.e_to.getD j 0) := by
  unfold edges
  rw [doSwap_e_from, doSwap_e_to]
  rw [zip_set (st.e_from.set i (st.e_from.getD j 0)) st.e_to j (st.e_from.getD i 0) 0
      (by simpa [List.length_set] using hlen.symm) (by rw [hlen]; exact hj),
    zip_set st.e_from st.e_to i (st.e_from.getD j 0) 0 hlen.symm (by rw [hlen]; exact hi)]

theorem set_set_nodup (L : List Edge) (i j : ℕ) (u v : Edge) (hnd : L.Nodup)
    (hu : u ∉ L) (hv : v ∉ L) (huv : v ≠ u) :
    ((L.set i u).set j v).Nodup := by
  refine (hnd.set hu).set ?_
  intro hm
  rcases List.mem_or_eq_of_mem_set hm with hm2 | he
  · exact hv hm2
  · exact huv he

theorem set_set_toFinset (L : List Edge) (i j : ℕ) (u v : Edge) (hnd : L.Nodup)
    (hu : u ∉ L) (hij : i ≠ j) (hi : i < L.length) (hj : j < L.length) :
    ((L.set i u).set j v).toFinset =
      insert v ((insert u (L.toFinset.erase (L.getD i (0, 0)))).erase (L.getD j (0, 0))) := by
  rw [toFinset_set _ j v (0, 0) (hnd.set hu) (by simpa using hj)]
  have hgd : (L.set i u).getD j (0, 0) = L.getD j (0, 0) := by
    rw [List.getD_eq_getElem _ _ (by simpa using hj), List.getElem_set_ne hij,
      List.getD_eq_getElem _ _ hj]
  rw [hgd, toFinset_set _ i u (0, 0) hnd hi]

theorem doSwap_inv (st : EState) (i j : ℕ) (g : Gen) (h : Inv st) (hij : i ≠ j)
    (hi : i < st.e_from.length) (hj : j < st.e_from.length)
    (had : (st.e_from.getD i 0, st.e_to.getD j 0) ∉ st.edgeSet)
    (hcb : (st.e_from.getD j 0, st.e_to.getD i 0) ∉ st.edgeSet) :
    Inv (doSwap st i j g) := by
  obtain ⟨hlen, hnd, hset⟩ := h
  have hi2 : i < st.e_to.length := by rw [hlen]; exact hi
  have hj2 : j < st.e_to.length := by rw [hlen]; exact hj
  have hLlen : (st.e_from.zip st.e_to).length = st.e_from.length := by
    simp [List.length_zip, hlen]
  have hiL : i < (st.e_from.zip st.e_to).length := by rw [hLlen]; exact hi
  have hjL : j < (st.e_from.zip st.e_to).length := by rw [hLlen]; exact hj
  have hLi : (st.e_from.zip st.e_to).getD i (0, 0) = (st.e_from.getD i 0, st.e_to.getD i 0) := by
    rw [List.getD_eq_getElem _ _ hiL, List.getElem_zip,
      List.getD_eq_getElem st.e_from 0 hi, List.getD_eq_getElem st.e_to 0 hi2]
  have hLj : (st.e_from.zip st.e_to).getD j (0, 0) = (st.e_from.getD j 0, st.e_to.getD j 0) := by
    rw [List.getD_eq_getElem _ _ hjL, List.getElem_zip,
      List.getD_eq_getElem st.e_from 0 hj, List.getD_eq_getElem st.e_to 0 hj2]
  have habL : (st.e_from.getD i 0, st.e_to.getD i 0) ∈ st.e_from.zip st.e_to := by
    rw [← hLi, List.getD_eq_getElem _ _ hiL]
    exact List.getElem_mem hiL
  have hcdL : (st.e_from.getD j 0, st.e_to.getD j 0) ∈ st.e_from.zip st.e_to := by
    rw [← hLj, List.getD_eq_getElem _ _ hjL]
    exact List.getElem_mem hjL
  have hsetL : st.edgeSet = (st.e_from.zip st.e_to).toFinset := hset
  have hadL : (st.e_from.getD i 0, st.e_to.getD j 0) ∉ st.e_from.zip st.e_to := by
    rw [hsetL] at had
    simpa [List.mem_toFinset] using had
  have hcbL : (st.e_from.getD j 0, st.e_to.getD i 0) ∉ st.e_from.zip st.e_to := by
    rw [hsetL] at hcb
    simpa [List.mem_toFinset] using hcb
  have hne1 : (st.e_from.getD i 0, st.e_to.getD j 0) ≠ (st.e_from.getD j 0, st.e_to.getD i 0) := by
    intro he
    rw [Prod.mk.injEq] at he
    refine hadL ?_
    rw [he.1]
    exact hcdL
  refine ⟨?_, ?_, ?_⟩
  · rw [doSwap_e_to, doSwap_e_from]
    simpa [List.length_set] using hlen
  · rw [doSwap_edges st i j g hlen hi hj]
    exact set_set_nodup (st.e_from.zip st.e_to) i j _ _ hnd hcbL hadL hne1
  · show (doSwap st i j g).edgeSet = (edges (doSwap st i j g)).toFinset
    rw [doSwap_edgeSet, doSwap_edges st i j g hlen hi hj,
      set_set_toFinset (st.e_from.zip st.e_to) i j _ _ hnd hcbL hij hiL hjL, hLi, hLj, hsetL]
    exact swap_finset_eq (List.mem_toFinset.2 habL) (List.mem_toFinset.2 hcdL)
      (fun hm => hadL (List.mem_toFinset.1 hm)) (fun hm => hcbL (List.mem_toFinset.1 hm))

theorem doSwap_inv_nil (st : EState) (i j : ℕ) (g : Gen) (h : Inv st)
    (hnil : st.e_from = []) : Inv (doSwap st i j g) := by
  obtain ⟨hlen, hnd, hset⟩ := h
  have hys : st.e_to = [] := by
    have : st.e_to.length = 0 := by rw [hlen, hnil]; rfl
    exact List.length_eq_zero.1 this
  have hE : st.edgeSet = ∅ := by
    rw [hset]
    simp [edges, hnil]
  refine ⟨?_, ?_, ?_⟩
  · rw [doSwap_e_to, doSwap_e_from, hnil, hys]
    simp
  · unfold edges
    rw [doSwap_e_from, hnil]
    simp
  · show (doSwap st i j g).edgeSet = (edges (doSwap st i j g)).toFinset
    unfold edges
    rw [doSwap_edgeSet, doSwap_e_from, doSwap_e_to, hnil, hys, hE]
    simp

theorem simpleStep_inv (p : ℚ) (st : EState) (h : Inv st) : Inv (simpleStep p st) := by
  unfold simpleStep
  dsimp only
  split_ifs with h1 h2 h3
  · exact h
  · rcases Nat.eq_zero_or_pos st.e_from.length with hm | hm
    · exact doSwap_inv_nil st _ _ _ h (List.length_eq_zero.1 hm)
    · exact doSwap_inv st _ _ _ h h1 (randint_lt _ _ hm) (randint_lt _ _ hm) h2.1 h2.2
  · exact h
  · exact h

theorem swapStep_inv (zs : Finset Edge) (w : ℤ → ℤ → ℚ) (st : EState) (h : Inv st) :
    Inv (swapStep zs w st).1 := by
  unfold swapStep
  dsimp only
  split_ifs with h1 h2 h3 h4
  · exact h
  · exact h
  · exact h
  · rcases Nat.eq_zero_or_pos st.e_from.length with hm | hm
    · exact doSwap_inv_nil st _ _ _ h (List.length_eq_zero.1 hm)
    · push_neg at h2
      exact doSwap_inv st _ _ _ h h1 (randint_lt _ _ hm) (randint_lt _ _ hm) h2.1 h2.2
  · exact h

theorem doSwap_from_mset (st : EState) (i j : ℕ) (g : Gen) (hij : i ≠ j)
    (hi : i < st.e_from.length) (hj : j < st.e_from.length) :
    ((doSwap st i j g).e_from : Multiset ℤ) = (st.e_from : Multiset ℤ) := by
  rw [doSwap_e_from]
  have hj' : j < (st.e_from.set i (st.e_from.getD j 0)).length := by simpa using hj
  rw [coe_set _ j _ 0 hj']
  have hgd : (st.e_from.set i (st.e_from.getD j 0)).getD j 0 = st.e_from.getD j 0 := by
    rw [List.getD_eq_getElem _ _ hj', List.getElem_set_ne hij]
    exact (List.getD_eq_getElem _ _ hj).symm
  rw [hgd, coe_set _ i _ 0 hi, Multiset.erase_cons_head, List.getD_eq_getElem _ _ hi]
  exact Multiset.cons_erase (Multiset.mem_coe.2 (List.getElem_mem hi))

theorem simpleStep_from_mset (p : ℚ) (st : EState) :
    ((simpleStep p st).e_from : Multiset ℤ) = (st.e_from : Multiset ℤ) := by
  unfold simpleStep
  dsimp only
  split_ifs with h1 h2 h3
  · rfl
  · rcases Nat.eq_zero_or_pos st.e_from.length with hm | hm
    · rw [doSwap_e_from, List.length_eq_zero.1 hm]
      simp
    · exact doSwap_from_mset st _ _ _ h1 (randint_lt _ _ hm) (randint_lt _ _ hm)
  · rfl
  · rfl

theorem simpleStep_e_to (p : ℚ) (st : EState) : (simpleStep p st).e_to = st.e_to := by
  unfold simpleStep
  dsimp only
  split_ifs <;> rfl

theorem swapStep_from_mset (zs : Finset Edge) (w : ℤ → ℤ → ℚ) (st : EState) :
    ((swapStep zs w st).1.e_from : Multiset ℤ) = (st.e_from : Multiset ℤ) := by
  unfold swapStep
  dsimp only
  split_ifs with h1 h2 h3 h4
  · rfl
  · rfl
  · rfl
  · rcases Nat.eq_zero_or_pos st.e_from.length with hm | hm
    · rw [doSwap_e_from, List.length_eq_zero.1 hm]
      simp
    · exact doSwap_from_mset st _ _ _ h1 (randint_lt _ _ hm) (randint_lt _ _ hm)
  · rfl

theorem swapStep_e_to (zs : Finset Edge) (w : ℤ → ℤ → ℚ) (st : EState) :
    (swapStep zs w st).1.e_to = st.e_to := by
  unfold swapStep
  dsimp only
  split_ifs <;> rfl

theorem doSwap_sep (st : EState) (i j : ℕ) (g : Gen)
    (hi : i < st.e_from.length) (hj : j < st.e_from.length) (h : SepFromTo st) :
    SepFromTo (doSwap st i j g) := by
  intro x hx y hy
  rw [doSwap_e_to] at hy
  rw [doSwap_e_from] at hx
  rcases List.mem_or_eq_of_mem_set hx with hx1 | rfl
  · rcases List.mem_or_eq_of_mem_set hx1 with hx2 | rfl
    · exact h x hx2 y hy
    · exact h _ (by rw [List.getD_eq_getElem _ _ hj]; exact List.getElem_mem hj) y hy
  · exact h _ (by rw [List.getD_eq_getElem _ _ hi]; exact List.getElem_mem hi) y hy

theorem simpleStep_sep (p : ℚ) (st : EState) (h : SepFromTo st) :
    SepFromTo (simpleStep p st) := by
  unfold simpleStep
  dsimp only
  split_ifs with h1 h2 h3
  · exact h
  · rcases Nat.eq_zero_or_pos st.e_from.length with hm | hm
    · intro x hx
      rw [doSwap_e_from, List.length_eq_zero.1 hm] at hx
      simp at hx
    · exact doSwap_sep st _ _ _ (randint_lt _ _ hm) (randint_lt _ _ hm) h
  · exact h
  · exact h

theorem swapStep_sep (zs : Finset Edge) (w : ℤ → ℤ → ℚ) (st : EState) (h : SepFromTo st) :
    SepFromTo (swapStep zs w st).1 := by
  unfold swapStep
  dsimp only
  split_ifs with h1 h2 h3 h4
  · exact h
  · exact h
  · exact h
  · rcases Nat.eq_zero_or_pos st.e_from.length with hm | hm
    · intro x hx
      rw [doSwap_e_from, List.length_eq_zero.1 hm] at hx
      simp at hx
    · exact doSwap_sep st _ _ _ (randint_lt _ _ hm) (randint_lt _ _ hm) h
  · exact h

theorem simpleRun_inv (p : ℚ) (n : ℕ) (st : EState) (h : Inv st) :
    Inv (simpleRun p n st) := by
  induction n generalizing st with
  | zero => exact h
  | succ n ih => exact ih _ (simpleStep_inv p st h)

theorem swapRun_inv (zs : Finset Edge) (w : ℤ → ℤ → ℚ) (n : ℕ) (st : EState) (h : Inv st) :
    Inv (swapRun zs w n st).1 := by
  induction n generalizing st with
  | zero => exact h
  | succ n ih => exact ih _ (swapStep_inv zs w st h)

theorem simpleRun_from_mset (p : ℚ) (n : ℕ) (st : EState) :
    ((simpleRun p n st).e_from : Multiset ℤ) = (st.e_from : Multiset ℤ) := by
  induction n generalizing st with
  | zero => rfl
  | succ n ih => rw [show simpleRun p (n + 1) st = simpleRun p n (simpleStep p st) from rfl,
      ih (simpleStep p st), simpleStep_from_mset]

theorem simpleRun_e_to (p : ℚ) (n : ℕ) (st : EState) :
    (simpleRun p n st).e_to = st.e_to := by
  induction n generalizing st with
  | zero => rfl
  | succ n ih => rw [show simpleRun p (n + 1) st = simpleRun p n (simpleStep p st) from rfl,
      ih (simpleStep p st), simpleStep_e_to]

theorem swapRun_from_mset (zs : Finset Edge) (w : ℤ → ℤ → ℚ) (n : ℕ) (st : EState) :
    ((swapRun zs w n st).1.e_from : Multiset ℤ) = (st.e_from : Multiset ℤ) := by
  induction n generalizing st with
  | zero => rfl
  | succ n ih => rw [show (swapRun zs w (n + 1) st).1
        = (swapRun zs w n (swapStep zs w st).1).1 from rfl,
      ih (swapStep zs w st).1, swapStep_from_mset]

theorem swapRun_e_to (zs : Finset Edge) (w : ℤ → ℤ → ℚ) (n : ℕ) (st : EState) :
    (swapRun zs w n st).1.e_to = st.e_to := by
  induction n generalizing st with
  | zero => rfl
  | succ n ih => rw [show (swapRun zs w (n + 1) st).1
        = (swapRun zs w n (swapStep zs w st).1).1 from rfl,
      ih (swapStep zs w st).1, swapStep_e_to]

theorem simpleRun_sep (p : ℚ) (n : ℕ) (st : EState) (h : SepFromTo st) :
    SepFromTo (simpleRun p n st) := by
  induction n generalizing st with
  | zero => exact h
  | succ n ih => exact ih _ (simpleStep_sep p st h)

theorem swapRun_sep (zs : Finset Edge) (w : ℤ → ℤ → ℚ) (n : ℕ) (st : EState)
    (h : SepFromTo st) : SepFromTo (swapRun zs w n st).1 := by
  induction n generalizing st with
  | zero => exact h
  | succ n ih => exact ih _ (swapStep_sep zs w st h)

theorem swapRun_len (zs : Finset Edge) (w : ℤ → ℤ → ℚ) (n : ℕ) (st : EState) :
    (swapRun zs w n st).2.length = n := by
  induction n generalizing st with
  | zero => rfl
  | succ n ih =>
    show ((swapStep zs w st).2 :: (swapRun zs w n (swapStep zs w st).1).2).length = n + 1
    rw [List.length_cons, ih]

theorem swapRun_diag (zs : Finset Edge) (w : ℤ → ℤ → ℚ) (n k : ℕ) (st : EState)
    (hk : k < n) :
    (swapRun zs w n st).2.getD k {} = (swapStep zs w (swapRun zs w k st).1).2 := by
  induction n generalizing st k with
  | zero => omega
  | succ n ih =>
    cases k with
    | zero => rfl
    | succ k =>
      have hk' : k < n := by omega
      exact ih k (swapStep zs w st).1 hk'

theorem swapStep_diag (zs : Finset Edge) (w : ℤ → ℤ → ℚ) (st : EState) :
    ((swapStep zs w st).2.same_edge = branchSame st)
    ∧ ((swapStep zs w st).2.can_swap = branchCan zs st)
    ∧ ((swapStep zs w st).2.did_swap = true → (swapStep zs w st).2.can_swap = true) := by
  unfold swapStep
  dsimp only
  split_ifs with h1 h2 h3 h4
  · have hij : stepI st = stepJ st := h1
    refine ⟨?_, ?_, ?_⟩ <;> simp [branchSame, branchCan, hij]
  · have hij : stepI st ≠ stepJ st := h1
    have hcb : cbFails st := h2
    refine ⟨?_, ?_, ?_⟩ <;> simp [branchSame, branchCan, hij, hcb]
  · have hij : stepI st ≠ stepJ st := h1
    have hcb : ¬ cbFails st := h2
    have hsz : szFails zs st := h3
    refine ⟨?_, ?_, ?_⟩ <;> simp [branchSame, branchCan, hij, hcb, hsz]
  · have hij : stepI st ≠ stepJ st := h1
    have hcb : ¬ cbFails st := h2
    have hsz : ¬ szFails zs st := h3
    refine ⟨?_, ?_, ?_⟩ <;> simp [branchSame, branchCan, hij, hcb, hsz]
  · have hij : stepI st ≠ stepJ st := h1
    have hcb : ¬ cbFails st := h2
    have hsz : ¬ szFails zs st := h3
    refine ⟨?_, ?_, ?_⟩ <;> simp [branchSame, branchCan, hij, hcb, hsz]

theorem branch_partition (zs : Finset Edge) (st : EState) :
    [branchSame st, branchCB st, branchSZ zs st, branchCan zs st].count true = 1 := by
  simp only [branchSame, branchCB, branchSZ, branchCan]
  cases h1 : decide (stepI st = stepJ st) <;>
    cases h2 : decide (cbFails st) <;>
      cases h3 : decide (szFails zs st) <;>
        simp [h1, h2, h3, List.count_cons]

theorem inv_card (st : EState) (h : Inv st) : st.edgeSet.card = st.e_from.length := by
  obtain ⟨hlen, hnd, hset⟩ := h
  rw [hset, List.toFinset_card_of_nodup hnd]
  unfold edges
  simp [List.length_zip, hlen]

theorem simpleRun_from_len (p : ℚ) (n : ℕ) (st : EState) :
    (simpleRun p n st).e_from.length = st.e_from.length := by
  have h := congrArg Multiset.card (simpleRun_from_mset p n st)
  simpa using h

theorem swapRun_from_len (zs : Finset Edge) (w : ℤ → ℤ → ℚ) (n : ℕ) (st : EState) :
    (swapRun zs w n st).1.e_from.length = st.e_from.length := by
  have h := congrArg Multiset.card (swapRun_from_mset zs w n st)
  simpa using h

theorem initState_inv (e_from e_to : List ℤ) (seed : ℤ) (device : ℕ)
    (hlen : e_to.length = e_from.length) (hnd : (e_from.zip e_to).Nodup) :
    Inv (initState e_from e_to seed device) := by
  refine ⟨hlen, hnd, ?_⟩
  show buildSet e_from e_to e_from.length = (e_from.zip e_to).toFinset
  exact buildSet_eq e_from e_to hlen

/-- C1: the claimed invariant — an edge list disjoint from the forbidden
set stays disjoint, every proposal whose completion edge `(a,d)` or `(c,b)`
is forbidden being rejected — fails on the code.  Initial edges
`[(0,1), (2,3)]` are disjoint from the forbidden set `{(2,1)}`, the one
step proposes completions `(0,3)` and `(2,1)` with `(2,1)` forbidden, yet
the step commits (`did_swap = true`, `is_not_struct_zeros` left `false`
only because the column is never written `true`) and the forbidden edge
`(2,1)` enters the edge list: line 181 looks `(c,b)` up in the edge set
instead of the zero set. -/
theorem claim_C1 :
    ((edges cexStA).all (fun q => decide (q ∉ cexZsA)) = true)
    ∧ ((2, 1) ∈ cexZsA)
    ∧ ((2, 1) ∈ edges (swapRun cexZsA oneW 1 cexStA).1)
    ∧ (((swapRun cexZsA oneW 1 cexStA).2.getD 0 {}).did_swap = true) := by decide

/-- C2: the forbidden-set oracle does not contain every pair of the
caller's zero vectors when their length differs from the edge count `m`:
with `m = 1` and zero vectors `[5,6]`, `[7,8]`, the constructed set is
`{(5,7)}` and omits the pair `(6,8)`, because the construction loop at
line 139 runs to `m`, not to the zero vectors' length. -/
theorem claim_C2 :
    (((6 : ℤ), (8 : ℤ)) ∈ [(5 : ℤ), 6].zip [7, 8])
    ∧ (buildSet [5, 6] [7, 8] 1 = {(5, 7)})
    ∧ (((6 : ℤ), (8 : ℤ)) ∉ buildSet [5, 6] [7, 8] 1) := by decide

/-- C3: the claimed column semantics — `is_checkerboard` false iff a
swap-completion edge exists, in particular true on a step that passes the
checkerboard test — fails on the code: a step that passes the test (it
even records `can_swap`) still shows `is_checkerboard = false`, because
the code only ever assigns `false` to the column (line 176) and the
column's zero-initialisation is never overwritten with `true`. -/
theorem claim_C3 :
    (((swapRun cexZsB oneW 1 cexStA).2.getD 0 {}).can_swap = true)
    ∧ (((swapRun cexZsB oneW 1 cexStA).2.getD 0 {}).did_swap = true)
    ∧ (((swapRun cexZsB oneW 1 cexStA).2.getD 0 {}).is_checkerboard = false) := by decide

/-- C4 counterexample: in the recorded diagnostic row of a step that drew
`i = j`, the four conditions {same_edge, ¬is_checkerboard,
¬is_not_struct_zeros, can_swap} do not hold exactly once: three of them
hold, because the two test columns are never set `true`. -/
theorem claim_C4_counterexample :
    [((swapRun cexZsB oneW 1 cexStSame).2.getD 0 {}).same_edge,
      !((swapRun cexZsB oneW 1 cexStSame).2.getD 0 {}).is_checkerboard,
      !((swapRun cexZsB oneW 1 cexStSame).2.getD 0 {}).is_not_struct_zeros,
      ((swapRun cexZsB oneW 1 cexStSame).2.getD 0 {}).can_swap].count true ≠ 1 := by decide

/-- C4 (amended): every one of the `n` steps writes exactly one diagnostic
row; for every step exactly one of the four control-flow classes
{drew i = j, rejected by the checkerboard test, rejected by the
structural-zero test, reached can_swap} holds; the recorded columns
`same_edge` and `can_swap` match the first and last class, and `did_swap`
implies `can_swap` in the recorded row.  (Exactly-one fails for the
*recorded* columns themselves, since `is_checkerboard` and
`is_not_struct_zeros` are never set `true`.) -/
theorem claim_C4 (zs : Finset Edge) (w : ℤ → ℤ → ℚ) (n : ℕ) (st : EState) :
    ((swapRun zs w n st).2.length = n)
    ∧ (∀ k, k < n →
        (((swapRun zs w n st).2.getD k {}).same_edge = branchSame (swapRun zs w k st).1)
        ∧ (((swapRun zs w n st).2.getD k {}).can_swap = branchCan zs (swapRun zs w k st).1)
        ∧ (((swapRun zs w n st).2.getD k {}).did_swap = true →
            ((swapRun zs w n st).2.getD k {}).can_swap = true)
        ∧ ([branchSame (swapRun zs w k st).1, branchCB (swapRun zs w k st).1,
            branchSZ zs (swapRun zs w k st).1,
            branchCan zs (swapRun zs w k st).1].count true = 1)) := by
  refine ⟨swapRun_len zs w n st, fun k hk => ?_⟩
  rw [swapRun_diag zs w n k st hk]
  obtain ⟨hs, hc, hd⟩ := swapStep_diag zs w (swapRun zs w k st).1
  exact ⟨hs, hc, hd, branch_partition zs (swapRun zs w k st).1⟩

/-- C4 witness: the amended claim instantiated on a concrete one-step
run. -/
theorem claim_C4_witness :
    ((swapRun cexZsB oneW 1 cexStB).2.length = 1)
    ∧ (((swapRun cexZsB oneW 1 cexStB).2.getD 0 {}).same_edge
        = branchSame (swapRun cexZsB oneW 0 cexStB).1) :=
  ⟨(claim_C4 cexZsB oneW 1 cexStB).1,
    ((claim_C4 cexZsB oneW 1 cexStB).2 0 (by decide)).1⟩

/-- C5 counterexample: self-loop immunity fails.  The input edge list
`[(1,2), (3,1)]` has no self-loop, yet after one step of either sampler
the edge list contains the self-loop `(1,1)`: the step swaps the two
edges into `(3,2)` and `(1,1)`, and the checkerboard test does not reject
it because `(1,1)` was not an existing edge. -/
theorem claim_C5_counterexample :
    ((edges cexStB).all (fun q => q.1 != q.2) = true)
    ∧ (((1 : ℤ), (1 : ℤ)) ∈ edges (simpleRun (mkRat 1 2) 1 cexStB))
    ∧ (((1 : ℤ), (1 : ℤ)) ∈ edges (swapRun cexZsB oneW 1 cexStB).1) := by decide

/-- C5 (amended): if no vertex of the input occurs both as a tail
(`from` value) and as a head (`to` value) — which in particular rules out
self-loops in the input — then at every step of either sampler the edge
list contains no self-loop. -/
theorem claim_C5 (p : ℚ) (zs : Finset Edge) (w : ℤ → ℤ → ℚ) (n : ℕ) (st : EState)
    (hsep : SepFromTo st) :
    (∀ q ∈ edges (simpleRun p n st), q.1 ≠ q.2)
    ∧ (∀ q ∈ edges (swapRun zs w n st).1, q.1 ≠ q.2) := by
  constructor
  · rintro ⟨x, y⟩ hq
    have hm := List.of_mem_zip hq
    exact simpleRun_sep p n st hsep x hm.1 y hm.2
  · rintro ⟨x, y⟩ hq
    have hm := List.of_mem_zip hq
    exact swapRun_sep zs w n st hsep x hm.1 y hm.2

/-- C5 witness: the amended claim instantiated on a concrete run whose
tail vertices `{0,2}` and head vertices `{1,3}` are disjoint. -/
theorem claim_C5_witness :
    SepFromTo cexStA
    ∧ (∀ q ∈ edges (simpleRun (mkRat 1 2) 1 cexStA), q.1 ≠ q.2)
    ∧ (∀ q ∈ edges (swapRun cexZsB oneW 1 cexStA).1, q.1 ≠ q.2) :=
  ⟨by decide, (claim_C5 (mkRat 1 2) cexZsB oneW 1 cexStA (by decide)).1,
    (claim_C5 (mkRat 1 2) cexZsB oneW 1 cexStA (by decide)).2⟩

/-- C6: in both samplers, for a simple-graph input (parallel vectors of
equal length, pairwise distinct edges), at every step boundary the edge
hash set equals the set of pairs in the edge list, its cardinality is the
edge count `m`, and the edge list holds no duplicate pair. -/
theorem claim_C6 (e_from e_to z_from z_to : List ℤ) (p : ℚ) (w : ℤ → ℤ → ℚ)
    (n : ℕ) (seed : ℤ) (device : ℕ)
    (hlen : e_to.length = e_from.length)
    (hnd : (e_from.zip e_to).Nodup) :
    ((simpleRun p n (initState e_from e_to seed device)).edgeSet
        = (edges (simpleRun p n (initState e_from e_to seed device))).toFinset
      ∧ (simpleRun p n (initState e_from e_to seed device)).edgeSet.card = e_from.length
      ∧ (edges (simpleRun p n (initState e_from e_to seed device))).Nodup)
    ∧ ((swapRun (buildSet z_from z_to e_from.length) w n
          (initState e_from e_to seed device)).1.edgeSet
        = (edges (swapRun (buildSet z_from z_to e_from.length) w n
            (initState e_from e_to seed device)).1).toFinset
      ∧ (swapRun (buildSet z_from z_to e_from.length) w n
          (initState e_from e_to seed device)).1.edgeSet.card = e_from.length
      ∧ (edges (swapRun (buildSet z_from z_to e_from.length) w n
          (initState e_from e_to seed device)).1).Nodup) := by
  have h0 : Inv (initState e_from e_to seed device) :=
    initState_inv e_from e_to seed device hlen hnd
  have h1 := simpleRun_inv p n _ h0
  have h2 := swapRun_inv (buildSet z_from z_to e_from.length) w n _ h0
  refine ⟨⟨h1.2.2, ?_, h1.2.1⟩, ⟨h2.2.2, ?_, h2.2.1⟩⟩
  · rw [inv_card _ h1, simpleRun_from_len]
    rfl
  · rw [inv_card _ h2, swapRun_from_len]
    rfl

/-- C6 witness: the invariant instantiated on a concrete simple-graph
input. -/
theorem claim_C6_witness :
    (([(1 : ℤ), 3].length = [(0 : ℤ), 2].length)
      ∧ ([(0 : ℤ), 2].zip [(1 : ℤ), 3]).Nodup)
    ∧ (simpleRun (mkRat 1 2) 2 (initState [0, 2] [1, 3] 5 0)).edgeSet.card
        = [(0 : ℤ), 2].length :=
  ⟨⟨by decide, by decide⟩,
    ((claim_C6 [0, 2] [1, 3] [2, 2] [1, 1] (mkRat 1 2) oneW 2 5 0
      (by decide) (by decide)).1).2.1⟩

/-- C7: in both samplers, after any number of steps the multiset of
`from` values of the edge list equals that of the input, and likewise the
multiset of `to` values: a committed swap only exchanges the `from`
fields of slots `i` and `j` and never touches the `to` vector. -/
theorem claim_C7 (p : ℚ) (zs : Finset Edge) (w : ℤ → ℤ → ℚ) (n : ℕ) (st : EState) :
    (((simpleRun p n st).e_from : Multiset ℤ) = (st.e_from : Multiset ℤ)
      ∧ ((simpleRun p n st).e_to : Multiset ℤ) = (st.e_to : Multiset ℤ))
    ∧ (((swapRun zs w n st).1.e_from : Multiset ℤ) = (st.e_from : Multiset ℤ)
      ∧ ((swapRun zs w n st).1.e_to : Multiset ℤ) = (st.e_to : Multiset ℤ)) := by
  refine ⟨⟨simpleRun_from_mset p n st, ?_⟩, ⟨swapRun_from_mset zs w n st, ?_⟩⟩
  · rw [simpleRun_e_to]
  · rw [swapRun_e_to]

/-- C8: with a non-sentinel seed, the outputs of either entry point do
not depend on the operating-system entropy word (the only source of
nondeterminism between two runs with identical inputs): both runs return
identical edge lists, and for `swap_n` identical diagnostics. -/
theorem claim_C8 (e_from e_to z_from z_to : List ℤ) (n : ℕ) (p : ℚ) (w : ℤ → ℤ → ℚ)
    (seed : ℤ) (d1 d2 : ℕ) (h : seed ≠ -1) :
    simple_swap_n e_from e_to n p seed d1 = simple_swap_n e_from e_to n p seed d2
    ∧ swap_n e_from e_to n w z_from z_to seed d1
      = swap_n e_from e_to n w z_from z_to seed d2 := by
  unfold simple_swap_n swap_n initState effectiveSeed
  constructor <;> rw [if_neg h, if_neg h]

/-- C8 witness: determinism instantiated at seed 5 with two different
device words. -/
theorem claim_C8_witness :
    ((5 : ℤ) ≠ -1)
    ∧ (simple_swap_n [0, 2] [1, 3] 1 (mkRat 1 2) 5 0
        = simple_swap_n [0, 2] [1, 3] 1 (mkRat 1 2) 5 7
      ∧ swap_n [0, 2] [1, 3] 1 oneW [2, 2] [1, 1] 5 0
        = swap_n [0, 2] [1, 3] 1 oneW [2, 2] [1, 1] 5 7) :=
  ⟨by decide,
    claim_C8 [0, 2] [1, 3] [2, 2] [1, 1] 1 (mkRat 1 2) oneW 5 0 7 (by decide)⟩

/-- C9: on every step that reaches the acceptance stage (distinct
indices, checkerboard passed, structural-zero test passed), the recorded
`can_swap` is true, the recorded `swap_p` equals the unclamped ratio
`W(a,d)·W(c,b) / (W(a,b)·W(c,d))`, and whenever that ratio is at least 1
the swap is committed with certainty, since the uniform draw lies in
`[0,1)`. -/
theorem claim_C9 (zs : Finset Edge) (w : ℤ → ℤ → ℚ) (st : EState)
    (h1 : stepI st ≠ stepJ st) (h2 : ¬ cbFails st) (h3 : ¬ szFails zs st) :
    ((swapStep zs w st).2.can_swap = true)
    ∧ ((swapStep zs w st).2.swap_p
        = w (stepA st) (stepD st) * w (stepC st) (stepB st)
          / (w (stepA st) (stepB st) * w (stepC st) (stepD st)))
    ∧ (1 ≤ (swapStep zs w st).2.swap_p → (swapStep zs w st).2.did_swap = true) := by
  unfold swapStep
  dsimp only
  split_ifs with g1 g2 g3 g4
  · exact absurd (show stepI st = stepJ st from g1) h1
  · exact absurd (show cbFails st from g2) h2
  · exact absurd (show szFails zs st from g3) h3
  · refine ⟨rfl, ?_, fun _ => rfl⟩
    show qdiv (qmul (w (stepA st) (stepD st)) (w (stepC st) (stepB st)))
        (qmul (w (stepA st) (stepB st)) (w (stepC st) (stepD st))) = _
    rw [qdiv_eq, qmul_eq, qmul_eq]
  · refine ⟨rfl, ?_, fun hsp => absurd (lt_of_lt_of_le (randu_lt_one _) hsp) g4⟩
    show qdiv (qmul (w (stepA st) (stepD st)) (w (stepC st) (stepB st)))
        (qmul (w (stepA st) (stepB st)) (w (stepC st) (stepD st))) = _
    rw [qdiv_eq, qmul_eq, qmul_eq]

/-- C9 witness: the acceptance-stage facts instantiated on a concrete
step with constant weights, where the ratio is 1 and the swap commits. -/
theorem claim_C9_witness :
    (stepI cexStB ≠ stepJ cexStB)
    ∧ ((swapStep cexZsB oneW cexStB).2.swap_p
        = oneW (stepA cexStB) (stepD cexStB) * oneW (stepC cexStB) (stepB cexStB)
          / (oneW (stepA cexStB) (stepB cexStB) * oneW (stepC cexStB) (stepD cexStB))) :=
  ⟨by decide, (claim_C9 cexZsB oneW cexStB (by decide) (by decide) (by decide)).2.1⟩

/-- C10: on every step that reaches the structural-zero test (distinct
indices, checkerboard passed), the test's second disjunct — which looks
`(c,b)` up in the edge set — is necessarily false, so the rejection
decision coincides with `(a,d) ∈ zeroSet`, and the step's entire outcome
is unchanged by replacing the zero set with any other set agreeing on
`(a,d)`; in particular the forbidden status of `(c,b)` never influences
the step. -/
theorem claim_C10 (zs1 zs2 : Finset Edge) (w : ℤ → ℤ → ℚ) (st : EState)
    (h1 : stepI st ≠ stepJ st) (h2 : ¬ cbFails st)
    (hz : (stepA st, stepD st) ∈ zs1 ↔ (stepA st, stepD st) ∈ zs2) :
    (szFails zs1 st ↔ (stepA st, stepD st) ∈ zs1)
    ∧ swapStep zs1 w st = swapStep zs2 w st := by
  have hcbE : (stepC st, stepB st) ∉ st.edgeSet := fun h => h2 (Or.inr h)
  constructor
  · constructor
    · rintro (h | h)
      · exact h
      · exact absurd h hcbE
    · exact Or.inl
  · unfold swapStep
    dsimp only
    have h1x : ¬ stepI st = stepJ st := h1
    have h2x : ¬ cbFails st := h2
    unfold stepI stepJ at h1x
    unfold cbFails stepA stepB stepC stepD stepI stepJ at h2x
    rw [if_neg h1x, if_neg h1x, if_neg h2x, if_neg h2x]
    by_cases hx : (stepA st, stepD st) ∈ zs1
    · have ha : szFails zs1 st := Or.inl hx
      have hb : szFails zs2 st := Or.inl (hz.1 hx)
      unfold szFails stepA stepB stepC stepD stepI stepJ at ha hb
      rw [if_pos ha, if_pos hb]
    · have hx2 : (stepA st, stepD st) ∉ zs2 := fun h => hx (hz.2 h)
      have ha : ¬ szFails zs1 st := fun h => h.elim hx hcbE
      have hb : ¬ szFails zs2 st := fun h => h.elim hx2 hcbE
      unfold szFails stepA stepB stepC stepD stepI stepJ at ha hb
      rw [if_neg ha, if_neg hb]

/-- C10 witness: the step outcome is identical under the zero set
`{(9,9)}` and the empty zero set, which agree on the step's `(a,d)`. -/
theorem claim_C10_witness :
    (stepI cexStB ≠ stepJ cexStB)
    ∧ swapStep cexZsB oneW cexStB = swapStep (∅ : Finset Edge) oneW cexStB :=
  ⟨by decide, (claim_C10 cexZsB ∅ oneW cexStB (by decide) (by decide) (by decide)).2⟩

end RMatrixSampling
